import Mathlib

/-!
Verification of the markup post-processing and artifact pipeline of the
kerykeion-mcp repository (src/kerykeion_mcp/chart_utils.py).

Strings are modelled as lists of characters.  The regular expressions used by
the source are simple enough to be compiled by hand into deterministic
scanners (each quantifier ranges over a single character class that is
disjoint from the following literal, so greedy maximal munch is exact).
Python's Unicode-aware classes are modelled by their ASCII cores, which is
faithful for every input considered here.
-/

abbrev Str := List Char

/-- Model of Python regex class `\w` (ASCII core: letters, digits, underscore). -/
def isWordChar (c : Char) : Bool := c.isAlphanum || c == '_'

/-- Model of Python regex class `[\w-]` used for custom-property names. -/
def isNameChar (c : Char) : Bool := isWordChar c || c == '-'

/-- Model of Python regex class `\s` / `str.isspace` (ASCII core). -/
def isSpaceChar (c : Char) : Bool :=
  c == ' ' || c == '\t' || c == '\n' || c == '\r' || c == '\x0b' || c == '\x0c'

/-- Model of Python `str.lower` (ASCII core). -/
def lowerStr (s : Str) : Str := s.map Char.toLower

/-- Model of Python `str.strip()`: remove leading and trailing whitespace. -/
def stripStr (s : Str) : Str :=
  ((s.dropWhile isSpaceChar).reverse.dropWhile isSpaceChar).reverse

/-- Boolean test that `pat` starts the list `s` (used to model Python `in`). -/
def strLeads : Str → Str → Bool
  | [], _ => true
  | _ :: _, [] => false
  | p :: ps, c :: cs => p == c && strLeads ps cs

/-- Model of Python substring containment `needle in hay`. -/
def strHasSub : Str → Str → Bool
  | [], needle => strLeads needle []
  | c :: rest, needle => strLeads needle (c :: rest) || strHasSub rest needle

/-- Propositional substring occurrence, used in specification statements. -/
def ListContains (s pat : Str) : Prop := ∃ a b, s = a ++ pat ++ b

/-! ## The custom-property resolver (`resolve_css_variables`) -/

/-- The fixed fallback color substituted for references to undeclared
properties (source line 54 and 65). -/
def fallbackColor : Str := ['#', '0', '0', '0', '0', '0', '0']

/-- The literal text whose presence in a declared value triggers nested
resolution (source line 50: `'var(--' in var_value`). -/
def varMark : Str := ['v', 'a', 'r', '(', '-', '-']

/-- The full reference pattern `var(--X)` for a name `X`. -/
def varRefStr (x : Str) : Str := varMark ++ x ++ [')']

/-- Split a list at its first `';'`: returns the part before it and the part
after it, or `none` if there is no `';'`.  Models the behaviour of the
regex fragment `([^;]+);` (the greedy negated class stops at the first
semicolon, which the literal then consumes). -/
def splitAtSemi : Str → Option (Str × Str)
  | [] => none
  | c :: cs =>
    if c == ';' then some ([], cs)
    else (splitAtSemi cs).map (fun p => (c :: p.1, p.2))

/-- Attempt to match the declaration regex `--([\w-]+):\s*([^;]+);` at the
head of the input.  On success returns the name (group 1), the stripped
value (group 2 after `.strip()`, which coincides with stripping everything
between the `:` and the first `;`), and the input remaining after the
consumed match. -/
def matchDecl (s : Str) : Option (Str × Str × Str) :=
  match s with
  | c1 :: c2 :: cs =>
    if c1 == '-' && c2 == '-' then
      let nm := cs.takeWhile isNameChar
      match cs.dropWhile isNameChar with
      | d :: cs2 =>
        if d == ':' then
          match splitAtSemi cs2 with
          | some (raw, rest) =>
            if nm.isEmpty || raw.isEmpty then none else some (nm, stripStr raw, rest)
          | none => none
        else none
      | [] => none
    else none
  | _ => none

/-- Python dict assignment `d[k] = v`: update in place if the key exists
(keeping its position), otherwise append at the end. -/
def updateAssoc : List (Str × Str) → Str → Str → List (Str × Str)
  | [], k, v => [(k, v)]
  | (k', v') :: rest, k, v =>
    if k' = k then (k, v) :: rest else (k', v') :: updateAssoc rest k v

/-- Python dict lookup `d.get(k)`. -/
def lookupVar : List (Str × Str) → Str → Option Str
  | [], _ => none
  | (k', v') :: rest, k => if k' = k then some v' else lookupVar rest k

/-- Fueled scan of `re.finditer(r'--([\w-]+):\s*([^;]+);', svg_string)`
building the definitions dict (later declarations of the same name
overwrite earlier ones).  The fuel is the length of the input; every step
consumes at least one character. -/
def extractDefsAux : Nat → Str → List (Str × Str) → List (Str × Str)
  | 0, _, acc => acc
  | _ + 1, [], acc => acc
  | n + 1, c :: cs, acc =>
    match matchDecl (c :: cs) with
    | some (nm, v, rest) => extractDefsAux n rest (updateAssoc acc nm v)
    | none => extractDefsAux n cs acc

/-- Extraction of CSS variable definitions (source lines 37-39). -/
def extractDefs (s : Str) : List (Str × Str) := extractDefsAux s.length s []

/-- Attempt to match the reference regex `var\(--([\w-]+)\)` at the head of
the input; returns the name and the input remaining after the `)`. -/
def matchVar (s : Str) : Option (Str × Str) :=
  match s with
  | c1 :: c2 :: c3 :: c4 :: c5 :: c6 :: cs =>
    if c1 == 'v' && c2 == 'a' && c3 == 'r' && c4 == '(' && c5 == '-' && c6 == '-' then
      let nm := cs.takeWhile isNameChar
      match cs.dropWhile isNameChar with
      | d :: rest => if d == ')' && !nm.isEmpty then some (nm, rest) else none
      | [] => none
    else none
  | _ => none

/-- Fueled model of one `re.sub(r'var\(--([\w-]+)\)', repl, s)` pass: scan
left to right, replace each non-overlapping match with the table value or
the fallback color, and do not rescan replacement text within the pass. -/
def subVarAux : Nat → List (Str × Str) → Str → Str
  | 0, _, s => s
  | _ + 1, _, [] => []
  | n + 1, t, c :: cs =>
    match matchVar (c :: cs) with
    | some (nm, rest) => ((lookupVar t nm).getD fallbackColor) ++ subVarAux n t rest
    | none => c :: subVarAux n t cs

/-- One substitution pass over a string. -/
def subVar (t : List (Str × Str)) (s : Str) : Str := subVarAux s.length t s

/-- One pass of the nested-definition resolution loop (source lines 48-58):
iterate over the keys in dict order; for each value containing `var(--`,
substitute references using the current state of the table (updates made
earlier in the same pass are visible); record whether anything changed. -/
def defPassAux : List Str → List (Str × Str) → Bool → List (Str × Str) × Bool
  | [], t, updated => (t, updated)
  | k :: ks, t, updated =>
    let v := (lookupVar t k).getD []
    if strHasSub v varMark then
      let newV := subVar t v
      if newV = v then defPassAux ks t updated
      else defPassAux ks (updateAssoc t k newV) true
    else defPassAux ks t updated

/-- One full pass of nested-definition resolution, as a table transformer. -/
def defPassStep (t : List (Str × Str)) : List (Str × Str) :=
  (defPassAux (t.map Prod.fst) t false).1

/-- The capped nested-definition resolution loop
(`for _ in range(max_iterations)` with early exit, source lines 46-60). -/
def defLoop : Nat → List (Str × Str) → List (Str × Str)
  | 0, t => t
  | n + 1, t =>
    let p := defPassAux (t.map Prod.fst) t false
    if p.2 then defLoop n p.1 else p.1

/-- The capped document substitution loop (`for _ in range(3)` with early
exit on stability, source lines 68-73). -/
def docLoop : Nat → List (Str × Str) → Str → Str
  | 0, _, s => s
  | n + 1, t, s =>
    let s' := subVar t s
    if s' = s then s else docLoop n t s'

/-- Model of `resolve_css_variables` (source lines 23-76). -/
def resolve_css_variables (svg_string : Str) : Str :=
  let var_defs := extractDefs svg_string
  if var_defs.isEmpty then svg_string
  else docLoop 3 (defLoop 10 var_defs) svg_string

/-- Fueled test for the presence of a complete `var(--name)` reference
pattern anywhere in a string. -/
def hasVarRefAux : Nat → Str → Bool
  | 0, _ => false
  | _ + 1, [] => false
  | n + 1, c :: cs => (matchVar (c :: cs)).isSome || hasVarRefAux n cs

/-- Whether a string contains a complete `var(--name)` reference pattern. -/
def hasVarRef (s : Str) : Bool := hasVarRefAux s.length s

/-! ## The artifact pipeline (`generate_and_save_images` and helpers) -/

/-- Decimal digits of a natural number, most significant first, computed with
explicit fuel so that it reduces in the kernel. -/
def decDigitsAux : Nat → Nat → Str
  | 0, _ => []
  | f + 1, n =>
    if n < 10 then [Nat.digitChar n]
    else decDigitsAux f (n / 10) ++ [Nat.digitChar (n % 10)]

/-- Decimal representation of a natural number. -/
def natStr (n : Nat) : Str := decDigitsAux (n + 1) n

/-- Zero-pad a decimal representation to width `w` (strftime zero-padding). -/
def padZero (w n : Nat) : Str :=
  List.replicate (w - (natStr n).length) '0' ++ natStr n

/-- A wall-clock instant as supplied by `datetime.now()`. -/
structure DateTimeRec where
  year : Nat
  month : Nat
  day : Nat
  hour : Nat
  minute : Nat
  second : Nat

/-- The field ranges guaranteed by Python's `datetime` for `datetime.now()`. -/
def validDT (dt : DateTimeRec) : Prop :=
  dt.year < 10000 ∧ dt.month ≤ 12 ∧ dt.day ≤ 31 ∧
  dt.hour ≤ 23 ∧ dt.minute ≤ 59 ∧ dt.second ≤ 59

/-- Model of `datetime.now().strftime("%Y%m%d_%H%M%S")` (source line 194). -/
def formatTimestamp (dt : DateTimeRec) : Str :=
  padZero 4 dt.year ++ padZero 2 dt.month ++ padZero 2 dt.day ++
    '_' :: (padZero 2 dt.hour ++ padZero 2 dt.minute ++ padZero 2 dt.second)

/-- Ambient context of a pipeline call: whether cairosvg imported, the raster
conversion black box (`cairosvg.svg2png` with width 1600, scale 2.0 and a
white background; `none` models both a raised exception and an unavailable
backend), the user's home directory, and the current wall-clock time. -/
structure RenderCtx where
  hasCairo : Bool
  convert : Str → Option (List Nat)
  home : Str
  now : DateTimeRec

/-- Filesystem behaviour model: which directory creations and file writes
succeed.  A `false` answer models a raised `OSError`. -/
structure FsModel where
  mkdirOk : Str → Bool
  writeOk : Str → Bool

/-- The fully functional filesystem. -/
def fsAll : FsModel := { mkdirOk := fun _ => true, writeOk := fun _ => true }

/-- A propagated filesystem exception. -/
inductive FsError where
  | mkdirFailed (dir : Str)
  | writeFailed (path : Str)
deriving DecidableEq

/-- Content written to a file: text (`write_text`) or bytes (`write_bytes`). -/
inductive FileContent where
  | text (s : Str)
  | bin (b : List Nat)
deriving DecidableEq

/-- The dictionary returned by `generate_and_save_images`; the optional
fields model keys that may be absent. -/
structure ChartResult where
  status : Str
  outputDir : Str
  svgPath : Option Str
  pngPath : Option Str
  summary : Str
deriving DecidableEq

/-- Model of `svg_to_png` (source lines 79-108): `None` when cairosvg is
unavailable, otherwise the black-box conversion applied to the markup with
CSS variables resolved first; a conversion failure is `none`. -/
def svg_to_png (ctx : RenderCtx) (svg_string : Str) : Option (List Nat) :=
  if ctx.hasCairo then ctx.convert (resolve_css_variables svg_string) else none

/-- Model of `get_chart_output_dir` (source lines 151-156): the user-scoped
default directory.  The function also creates the directory; that effect
is accounted for in `generate_and_save_images`. -/
def get_chart_output_dir (ctx : RenderCtx) : Str :=
  ctx.home ++ "/.kerykeion_charts".toList

/-- Sanitization `re.sub(r'[^\w\-]', '_', name)` (a single-character class,
hence a per-character map). -/
def sanitizeName (s : Str) : Str :=
  s.map (fun c => if isNameChar c then c else '_')

/-- The sanitized, lowercased base of the file name (source line 193). -/
def chartSafeName (chart_name : Str) : Str := sanitizeName (lowerStr chart_name)

/-- The timestamped base file name (source line 195). -/
def chartBaseName (ctx : RenderCtx) (chart_name : Str) : Str :=
  chartSafeName chart_name ++ '_' :: formatTimestamp ctx.now

/-- The output directory used: the caller's directory when truthy (a
non-empty string), the user-scoped default otherwise (source lines
197-202; Python's `if output_dir:` is falsy for both `None` and `""`). -/
def chartOutPath (ctx : RenderCtx) (output_dir : Option Str) : Str :=
  match output_dir with
  | some d => if d = [] then get_chart_output_dir ctx else d
  | none => get_chart_output_dir ctx

/-- The path of the vector artifact (source line 213). -/
def svgSavePath (ctx : RenderCtx) (chart_name : Str) (output_dir : Option Str) : Str :=
  chartOutPath ctx output_dir ++ '/' :: (chartBaseName ctx chart_name ++ ".svg".toList)

/-- The path of the raster artifact (source line 222). -/
def pngSavePath (ctx : RenderCtx) (chart_name : Str) (output_dir : Option Str) : Str :=
  chartOutPath ctx output_dir ++ '/' :: (chartBaseName ctx chart_name ++ ".png".toList)

/-- Model of `generate_and_save_images` (source lines 159-234).  Returns the
list of performed file writes together with the result dictionary, or the
first propagated filesystem exception.  Filesystem failures short-circuit
exactly as uncaught Python exceptions do; a raster conversion failure is
swallowed (the `png_path` key is simply not added). -/
def generate_and_save_images (fs : FsModel) (ctx : RenderCtx)
    (svg_string chart_name : Str) (output_dir : Option Str)
    (save_svg save_png : Bool) :
    Except FsError (List (Str × FileContent) × ChartResult) :=
  let base_name := chartBaseName ctx chart_name
  let out_path := chartOutPath ctx output_dir
  if fs.mkdirOk out_path = false then Except.error (FsError.mkdirFailed out_path)
  else
    let svgStep : Except FsError (List (Str × FileContent) × Option Str) :=
      if save_svg then
        let p := out_path ++ '/' :: (base_name ++ ".svg".toList)
        if fs.writeOk p = false then Except.error (FsError.writeFailed p)
        else Except.ok ([(p, FileContent.text svg_string)], some p)
      else Except.ok ([], none)
    match svgStep with
    | Except.error e => Except.error e
    | Except.ok (files1, svgP) =>
      let pngStep : Except FsError (List (Str × FileContent) × Option Str) :=
        if save_png && ctx.hasCairo then
          match svg_to_png ctx svg_string with
          | some bytes =>
            let p := out_path ++ '/' :: (base_name ++ ".png".toList)
            if fs.writeOk p = false then Except.error (FsError.writeFailed p)
            else Except.ok ([(p, FileContent.bin bytes)], some p)
          | none => Except.ok ([], none)
        else Except.ok ([], none)
      match pngStep with
      | Except.error e => Except.error e
      | Except.ok (files2, pngP) =>
        Except.ok (files1 ++ files2,
          { status := "success".toList
            outputDir := out_path
            svgPath := svgP
            pngPath := pngP
            summary := "Chart generated successfully. SVG: ".toList ++
              svgP.getD ("N/A".toList) ++ ", PNG: ".toList ++
              pngP.getD ("N/A".toList) })

/-! ## Validation helpers -/

/-- The fixed perspective-type domain (source line 257). -/
def VALID_PERSPECTIVE_TYPES : List Str :=
  ["Apparent Geocentric".toList, "Heliocentric".toList, "Topocentric".toList]

/-- Model of `validate_perspective_type` (source lines 298-306): return the
first valid value that the lowercased input equals or is a substring of,
defaulting to `"Apparent Geocentric"`. -/
def validate_perspective_type (perspective_type : Str) : Str :=
  let pt_lower := lowerStr perspective_type
  match VALID_PERSPECTIVE_TYPES.find?
      (fun valid => pt_lower == lowerStr valid || strHasSub (lowerStr valid) pt_lower) with
  | some v => v
  | none => "Apparent Geocentric".toList

/-! ## Concrete inputs used in tests, counterexamples and witnesses -/

/-- The declaration chain of the spec's transitivity property, with a usage
elsewhere in the document. -/
def chainInput : Str := "--a: var(--b); --b: var(--c); --c: red; fill:var(--a)".toList

/-- A markup whose declared values contain partial reference syntax, which
the bounded document substitution turns into a fresh complete reference on
its final pass. -/
def pathoInput : Str :=
  "--a: var(--X; --b: var(--a; --c: var(--b; var(--c)))) var(--X)".toList

/-- The same pathological markup without the trailing reference. -/
def nonIdemInput : Str :=
  "--a: var(--X; --b: var(--a; --c: var(--b; var(--c))))".toList

/-- A render context without the raster backend. -/
def c6CtxNoCairo : RenderCtx :=
  { hasCairo := false
    convert := fun _ => none
    home := "/home/user".toList
    now := ⟨2025, 1, 2, 3, 4, 5⟩ }

/-- A filesystem on which directory creation fails. -/
def c7FsNoMkdir : FsModel := { mkdirOk := fun _ => false, writeOk := fun _ => true }

/-- A filesystem on which every file write fails. -/
def c7FsNoWrite : FsModel := { mkdirOk := fun _ => true, writeOk := fun _ => false }

/-- A render context with a working raster backend. -/
def c7Ctx : RenderCtx :=
  { hasCairo := true
    convert := fun _ => some [0]
    home := "/home/user".toList
    now := ⟨2025, 1, 2, 3, 4, 5⟩ }

/-- A filesystem on which only the raster write fails. -/
def c7FsNoPngWrite : FsModel :=
  { mkdirOk := fun _ => true
    writeOk := fun p => !(p == pngSavePath c7Ctx ("c".toList) none) }

/-! ## Basic facts about the string utilities -/

theorem strLeads_iff (p s : Str) : strLeads p s = true ↔ ∃ b, s = p ++ b := by
  induction p generalizing s with
  | nil => simp [strLeads]
  | cons x ps ih =>
    cases s with
    | nil => simp [strLeads]
    | cons c cs =>
      simp only [strLeads, Bool.and_eq_true, beq_iff_eq, ih, List.cons_append,
        List.cons.injEq]
      constructor
      · rintro ⟨rfl, b, rfl⟩; exact ⟨b, rfl, rfl⟩
      · rintro ⟨b, rfl, rfl⟩; exact ⟨rfl, b, rfl⟩

theorem strHasSub_iff (s p : Str) : strHasSub s p = true ↔ ListContains s p := by
  induction s with
  | nil =>
    simp only [strHasSub, strLeads_iff, ListContains]
    constructor
    · rintro ⟨b, hb⟩
      exact ⟨[], b, by simpa using hb⟩
    · rintro ⟨a, b, h⟩
      cases a with
      | nil => exact ⟨b, by simpa using h⟩
      | cons x xs => simp at h
  | cons c cs ih =>
    simp only [strHasSub, Bool.or_eq_true, strLeads_iff, ih, ListContains]
    constructor
    · rintro (⟨b, hb⟩ | ⟨a, b, h⟩)
      · exact ⟨[], b, by simpa using hb⟩
      · exact ⟨c :: a, b, by simp [h]⟩
    · rintro ⟨a, b, h⟩
      cases a with
      | nil => exact Or.inl ⟨b, by simpa using h⟩
      | cons x xs =>
        simp only [List.cons_append, List.cons.injEq] at h
        exact Or.inr ⟨xs, b, h.2⟩

theorem listContains_cons {s p : Str} (c : Char) (h : ListContains s p) :
    ListContains (c :: s) p := by
  obtain ⟨a, b, rfl⟩ := h
  exact ⟨c :: a, b, rfl⟩

theorem listContains_append_left {s p : Str} (a : Str) (h : ListContains s p) :
    ListContains (a ++ s) p := by
  obtain ⟨x, y, rfl⟩ := h
  exact ⟨a ++ x, y, by simp⟩

/-- Splitting an equality of concatenations at the boundary of the shorter
left part. -/
theorem append_split {α : Type} (a b c d : List α) (h : a ++ b = c ++ d) :
    (∃ w, c = a ++ w ∧ b = w ++ d) ∨ (∃ w, a = c ++ w ∧ d = w ++ b) := by
  induction a generalizing c with
  | nil =>
    exact Or.inl ⟨c, rfl, h⟩
  | cons x a' ih =>
    cases c with
    | nil =>
      exact Or.inr ⟨x :: a', rfl, h.symm⟩
    | cons y c' =>
      simp only [List.cons_append, List.cons.injEq] at h
      obtain ⟨rfl, h2⟩ := h
      rcases ih c' h2 with ⟨w, rfl, rfl⟩ | ⟨w, rfl, rfl⟩
      · exact Or.inl ⟨w, rfl, rfl⟩
      · exact Or.inr ⟨w, rfl, rfl⟩

/-! ## Facts about the reference matcher -/

theorem takeWhile_all_append {p : Char → Bool} (X : Str) (d : Char) (r : Str)
    (hX : ∀ c ∈ X, p c = true) (hd : p d = false) :
    (X ++ d :: r).takeWhile p = X ∧ (X ++ d :: r).dropWhile p = d :: r := by
  induction X with
  | nil => simp [List.takeWhile, List.dropWhile, hd]
  | cons x xs ih =>
    have hx : p x = true := hX x (by simp)
    have ih' := ih (fun c hc => hX c (by simp [hc]))
    simp [List.takeWhile, List.dropWhile, hx, ih'.1, ih'.2]

/-- A successful reference match decomposes the input as the matched pattern
followed by the rest, with a non-empty all-name-character group. -/
theorem matchVar_decomp {s nm rest : Str} (h : matchVar s = some (nm, rest)) :
    s = varRefStr nm ++ rest ∧ nm ≠ [] ∧ ∀ c ∈ nm, isNameChar c = true := by
  match s with
  | [] => simp [matchVar] at h
  | [_] => simp [matchVar] at h
  | [_, _] => simp [matchVar] at h
  | [_, _, _] => simp [matchVar] at h
  | [_, _, _, _] => simp [matchVar] at h
  | [_, _, _, _, _] => simp [matchVar] at h
  | c1 :: c2 :: c3 :: c4 :: c5 :: c6 :: cs =>
    rw [matchVar] at h
    by_cases hc : (c1 == 'v' && c2 == 'a' && c3 == 'r' && c4 == '(' &&
        c5 == '-' && c6 == '-') = true
    · rw [if_pos hc] at h
      simp only [Bool.and_eq_true, beq_iff_eq] at hc
      obtain ⟨⟨⟨⟨⟨rfl, rfl⟩, rfl⟩, rfl⟩, rfl⟩, rfl⟩ := hc
      have hcs : cs.takeWhile isNameChar ++ cs.dropWhile isNameChar = cs :=
        List.takeWhile_append_dropWhile isNameChar cs
      cases hdw : cs.dropWhile isNameChar with
      | nil => rw [hdw] at h; simp at h
      | cons d rest' =>
        rw [hdw] at h hcs
        simp only at h
        by_cases hd : (d == ')' && !(cs.takeWhile isNameChar).isEmpty) = true
        · rw [if_pos hd] at h
          simp only [Bool.and_eq_true, beq_iff_eq, Bool.not_eq_true',
            List.isEmpty_eq_false] at hd
          obtain ⟨rfl, hne⟩ := hd
          simp only [Option.some.injEq, Prod.mk.injEq] at h
          obtain ⟨rfl, rfl⟩ := h
          refine ⟨?_, hne, fun c hc => List.mem_takeWhile_imp hc⟩
          conv_lhs => rw [← hcs]
          simp [varRefStr, varMark]
        · rw [if_neg hd] at h; simp at h
    · rw [if_neg hc] at h; simp at h

/-- The reference matcher succeeds on a well-formed pattern at the head. -/
theorem matchVar_pattern {nm : Str} (post : Str) (hne : nm ≠ [])
    (hchars : ∀ c ∈ nm, isNameChar c = true) :
    matchVar (varRefStr nm ++ post) = some (nm, post) := by
  have hsplit := takeWhile_all_append nm ')' post hchars (by decide)
  have : varRefStr nm ++ post = 'v' :: 'a' :: 'r' :: '(' :: '-' :: '-' ::
      (nm ++ ')' :: post) := by simp [varRefStr, varMark]
  rw [this, matchVar, if_pos (by decide), hsplit.2]
  simp [hsplit.1, List.isEmpty_iff, hne]

/-- A list that does not start with `'v'` cannot start a reference match. -/
theorem matchVar_head_ne {c : Char} (cs : Str) (hc : (c == 'v') = false) :
    matchVar (c :: cs) = none := by
  match cs with
  | [] => simp [matchVar]
  | [_] => simp [matchVar]
  | [_, _] => simp [matchVar]
  | [_, _, _] => simp [matchVar]
  | [_, _, _, _] => simp [matchVar]
  | _ :: _ :: _ :: _ :: _ :: _ => rw [matchVar, if_neg (by simp [hc])]

/-! ## Facts about the substitution scan -/

theorem subVarAux_cons_none {n : Nat} {t : List (Str × Str)} {c : Char} {cs : Str}
    (h : matchVar (c :: cs) = none) :
    subVarAux (n + 1) t (c :: cs) = c :: subVarAux n t cs := by
  simp [subVarAux, h]

theorem subVarAux_cons_some {n : Nat} {t : List (Str × Str)} {c : Char} {cs nm rest : Str}
    (h : matchVar (c :: cs) = some (nm, rest)) :
    subVarAux (n + 1) t (c :: cs) =
      ((lookupVar t nm).getD fallbackColor) ++ subVarAux n t rest := by
  simp [subVarAux, h]

/-- The scan copies a leading block none of whose characters can start a
reference match. -/
theorem subVarAux_skip (t : List (Str × Str)) (blk : Str)
    (hblk : ∀ c ∈ blk, (c == 'v') = false) :
    ∀ n rest, blk.length ≤ n →
      subVarAux n t (blk ++ rest) = blk ++ subVarAux (n - blk.length) t rest := by
  induction blk with
  | nil => intro n rest _; simp
  | cons c blk' ih =>
    intro n rest hn
    simp only [List.length_cons] at hn
    obtain ⟨m, rfl⟩ : ∃ m, n = m + 1 := ⟨n - 1, by omega⟩
    have harith : m + 1 - (c :: blk').length = m - blk'.length := by
      simp only [List.length_cons]; omega
    rw [harith, List.cons_append,
      subVarAux_cons_none (matchVar_head_ne _ (hblk c (by simp))),
      ih (fun d hd => hblk d (by simp [hd])) m rest (by omega)]
    simp

/-- Characters of a reference pattern with a well-formed name are never `'#'`. -/
theorem varRefStr_no_hash {nm : Str} (hchars : ∀ c ∈ nm, isNameChar c = true)
    {d : Char} (hd : d ∈ varRefStr nm) (hdh : d = '#') : False := by
  subst hdh
  simp only [varRefStr, List.mem_append, List.mem_singleton] at hd
  rcases hd with (h | h) | h
  · exact absurd h (by decide)
  · exact absurd (hchars _ h) (by decide)
  · exact absurd h (by decide)

/-- A substitution pass preserves the presence of the fallback color. -/
theorem subVarAux_keeps_fallback :
    ∀ (f : Nat) (t : List (Str × Str)) (s : Str), s.length ≤ f →
      ListContains s fallbackColor →
      ListContains (subVarAux f t s) fallbackColor := by
  intro f
  induction f with
  | zero => intro t s _ h; simpa [subVarAux] using h
  | succ n ih =>
    intro t s hlen h
    obtain ⟨a, b, rfl⟩ := h
    cases a with
    | nil =>
      simp only [List.nil_append] at hlen ⊢
      rw [subVarAux_skip t fallbackColor (by decide) (n + 1) b
        (by simp [fallbackColor] at hlen ⊢; omega)]
      exact ⟨[], _, rfl⟩
    | cons p a' =>
      simp only [List.cons_append, List.append_assoc] at hlen ⊢
      cases hm : matchVar (p :: (a' ++ (fallbackColor ++ b))) with
      | none =>
        rw [subVarAux_cons_none hm]
        refine listContains_cons p (ih t _ ?_ ⟨a', b, by simp⟩)
        simp only [List.length_cons, List.length_append] at hlen ⊢
        omega
      | some pr =>
        obtain ⟨nm, rest⟩ := pr
        rw [subVarAux_cons_some hm]
        obtain ⟨hs, hne, hchars⟩ := matchVar_decomp hm
        have hs' : varRefStr nm ++ rest = (p :: a') ++ (fallbackColor ++ b) := by
          rw [← hs]; simp
        have hvl : 1 ≤ (varRefStr nm).length := by
          simp [varRefStr, varMark]
        have hlen' : rest.length ≤ n := by
          have h1 := congrArg List.length hs
          simp only [List.length_cons, List.length_append] at h1 hlen
          omega
        rcases append_split _ _ _ _ hs' with ⟨w, hw1, hw2⟩ | ⟨w, hw1, hw2⟩
        · refine listContains_append_left _ (ih t rest hlen' ?_)
          exact ⟨w, b, by rw [hw2, List.append_assoc]⟩
        · cases w with
          | nil =>
            refine listContains_append_left _ (ih t rest hlen' ?_)
            simp only [List.nil_append] at hw2
            exact ⟨[], b, by simp [← hw2]⟩
          | cons d w' =>
            exfalso
            have hdmem : d ∈ varRefStr nm := by
              rw [hw1]; simp
            have hdh : d = '#' := by
              have h2 := congrArg List.head? hw2
              simp [fallbackColor] at h2
              exact h2.symm
            exact varRefStr_no_hash hchars hdmem hdh

/-- A nonempty proper suffix of `nm ++ [')']` (with `nm` all name characters)
is never a prefix of a string starting with `var(`. -/
theorem name_suffix_no_overlap :
    ∀ (nm pre2 w rest Z : Str), (∀ c ∈ nm, isNameChar c = true) →
      pre2 ++ w = nm ++ [')'] → w ≠ [] →
      w ++ rest = 'v' :: 'a' :: 'r' :: '(' :: Z → False := by
  intro nm
  induction nm with
  | nil =>
    intro pre2 w rest Z _ h1 hw h2
    cases pre2 with
    | nil =>
      simp only [List.nil_append] at h1
      subst h1
      simp at h2
    | cons a pre2' =>
      simp only [List.cons_append, List.nil_append, List.cons.injEq] at h1
      have := h1.2
      have : w = [] := (List.append_eq_nil.mp this).2
      exact hw this
  | cons n0 nm' ih =>
    intro pre2 w rest Z hchars h1 hw h2
    cases pre2 with
    | nil =>
      simp only [List.nil_append] at h1
      subst h1
      simp only [List.cons_append, List.cons.injEq] at h2
      obtain ⟨hn0, h2⟩ := h2
      cases nm' with
      | nil => simp at h2
      | cons n1 nm'' =>
        simp only [List.cons_append, List.cons.injEq] at h2
        obtain ⟨hn1, h2⟩ := h2
        cases nm'' with
        | nil => simp at h2
        | cons n2 nm''' =>
          simp only [List.cons_append, List.cons.injEq] at h2
          obtain ⟨hn2, h2⟩ := h2
          cases nm''' with
          | nil => simp at h2
          | cons n3 nm4 =>
            simp only [List.cons_append, List.cons.injEq] at h2
            have hn3 : n3 = '(' := h2.1
            have : isNameChar n3 = true := hchars n3 (by simp)
            rw [hn3] at this
            exact absurd this (by decide)
    | cons a pre2' =>
      simp only [List.cons_append, List.cons.injEq] at h1
      exact ih pre2' w rest Z (fun c hc => hchars c (by simp [hc])) h1.2 hw h2

/-- A nonempty proper suffix of a reference pattern is never a prefix of a
string starting with another reference pattern. -/
theorem varRef_no_overlap {nm X post w rest : Str} {p : Char} {pre' : Str}
    (hchars : ∀ c ∈ nm, isNameChar c = true)
    (h1 : varRefStr nm = (p :: pre') ++ w) (hw : w ≠ [])
    (h2 : varRefStr X ++ post = w ++ rest) : False := by
  have h2' : w ++ rest = 'v' :: 'a' :: 'r' :: '(' ::
      ('-' :: '-' :: (X ++ [')'] ++ post)) := by
    rw [← h2]; simp [varRefStr, varMark]
  have h1' : 'v' :: 'a' :: 'r' :: '(' :: '-' :: '-' :: (nm ++ [')']) =
      (p :: pre') ++ w := by
    rw [← h1]; simp [varRefStr, varMark]
  simp only [List.cons_append, List.cons.injEq] at h1'
  obtain ⟨-, h1'⟩ := h1'
  cases pre' with
  | nil =>
    obtain ⟨rfl⟩ : w = 'a' :: 'r' :: '(' :: '-' :: '-' :: (nm ++ [')']) := by
      simpa using h1'.symm
    simp at h2'
  | cons q1 pre1 =>
    simp only [List.cons_append, List.cons.injEq] at h1'
    obtain ⟨-, h1'⟩ := h1'
    cases pre1 with
    | nil =>
      obtain ⟨rfl⟩ : w = 'r' :: '(' :: '-' :: '-' :: (nm ++ [')']) := by
        simpa using h1'.symm
      simp at h2'
    | cons q2 pre2 =>
      simp only [List.cons_append, List.cons.injEq] at h1'
      obtain ⟨-, h1'⟩ := h1'
      cases pre2 with
      | nil =>
        obtain ⟨rfl⟩ : w = '(' :: '-' :: '-' :: (nm ++ [')']) := by
          simpa using h1'.symm
        simp at h2'
      | cons q3 pre3 =>
        simp only [List.cons_append, List.cons.injEq] at h1'
        obtain ⟨-, h1'⟩ := h1'
        cases pre3 with
        | nil =>
          obtain ⟨rfl⟩ : w = '-' :: '-' :: (nm ++ [')']) := by
            simpa using h1'.symm
          simp at h2'
        | cons q4 pre4 =>
          simp only [List.cons_append, List.cons.injEq] at h1'
          obtain ⟨-, h1'⟩ := h1'
          cases pre4 with
          | nil =>
            obtain ⟨rfl⟩ : w = '-' :: (nm ++ [')']) := by
              simpa using h1'.symm
            simp at h2'
          | cons q5 pre5 =>
            simp only [List.cons_append, List.cons.injEq] at h1'
            obtain ⟨-, h1'⟩ := h1'
            exact name_suffix_no_overlap nm pre5 w rest _ hchars h1'.symm hw h2'

/-- A substitution pass over a document containing a reference to an
undeclared name introduces the fallback color. -/
theorem subVarAux_hits_fallback :
    ∀ (f : Nat) (t : List (Str × Str)) (pre X post : Str),
      (pre ++ varRefStr X ++ post).length ≤ f →
      X ≠ [] → (∀ c ∈ X, isNameChar c = true) → lookupVar t X = none →
      ListContains (subVarAux f t (pre ++ varRefStr X ++ post)) fallbackColor := by
  intro f
  induction f with
  | zero =>
    intro t pre X post hlen _ _ _
    exfalso
    have : 1 ≤ (varRefStr X).length := by simp [varRefStr, varMark]
    simp only [List.length_append] at hlen
    omega
  | succ n ih =>
    intro t pre X post hlen hne hchars hmiss
    cases pre with
    | nil =>
      have hmv : matchVar (varRefStr X ++ post) = some (X, post) :=
        matchVar_pattern post hne hchars
      have hshape : varRefStr X ++ post = 'v' :: 'a' :: 'r' :: '(' :: '-' :: '-' ::
          (X ++ ')' :: post) := by simp [varRefStr, varMark]
      simp only [List.nil_append] at hlen ⊢
      rw [hshape] at hmv ⊢
      rw [subVarAux_cons_some hmv, hmiss]
      exact ⟨[], _, rfl⟩
    | cons p pre' =>
      simp only [List.cons_append, List.append_assoc] at hlen ⊢
      cases hm : matchVar (p :: (pre' ++ (varRefStr X ++ post))) with
      | none =>
        rw [subVarAux_cons_none hm]
        refine listContains_cons p ?_
        have := ih t pre' X post (by
          simp only [List.length_cons, List.length_append] at hlen ⊢
          omega) hne hchars hmiss
        simpa [List.append_assoc] using this
      | some pr =>
        obtain ⟨nm, rest⟩ := pr
        rw [subVarAux_cons_some hm]
        obtain ⟨hs, hnmne, hnmchars⟩ := matchVar_decomp hm
        have hs' : varRefStr nm ++ rest = (p :: pre') ++ (varRefStr X ++ post) := by
          rw [← hs]; simp
        have hvl : 1 ≤ (varRefStr nm).length := by
          simp [varRefStr, varMark]
        have hlen' : rest.length ≤ n := by
          have h1 := congrArg List.length hs
          simp only [List.length_cons, List.length_append] at h1 hlen
          omega
        rcases append_split _ _ _ _ hs' with ⟨w, hw1, hw2⟩ | ⟨w, hw1, hw2⟩
        · refine listContains_append_left _ ?_
          have := ih t w X post (by
            rw [hw2] at hlen'
            simp only [List.length_append] at hlen' ⊢
            omega) hne hchars hmiss
          rw [hw2]
          simpa [List.append_assoc] using this
        · cases w with
          | nil =>
            simp only [List.nil_append] at hw2
            refine listContains_append_left _ ?_
            have := ih t [] X post (by
              rw [← hw2] at hlen'
              simpa using hlen') hne hchars hmiss
            rw [← hw2]
            simpa using this
          | cons d w' =>
            exact (varRef_no_overlap hnmchars hw1 (by simp) hw2).elim

/-! ## Facts about the definitions table -/

theorem lookupVar_updateAssoc (t : List (Str × Str)) (k v x) :
    lookupVar (updateAssoc t k v) x = if k = x then some v else lookupVar t x := by
  induction t with
  | nil => simp [updateAssoc, lookupVar]
  | cons hd rest ih =>
    obtain ⟨k', v'⟩ := hd
    by_cases hk : k' = k
    · subst hk
      simp only [updateAssoc, if_pos rfl, lookupVar]
      by_cases hx : k' = x
      · simp [hx]
      · simp [hx]
    · simp only [updateAssoc, if_neg hk, lookupVar]
      by_cases hx : k' = x
      · subst hx
        have : ¬ k = k' := fun h => hk h.symm
        simp [this]
      · simp [hx, ih]

theorem defPassAux_lookup_none (X : Str) :
    ∀ (ks : List Str) (t : List (Str × Str)) (u : Bool),
      lookupVar t X = none → lookupVar (defPassAux ks t u).1 X = none := by
  intro ks
  induction ks with
  | nil => intro t u h; simpa [defPassAux] using h
  | cons k ks' ih =>
    intro t u h
    by_cases hk : k = X
    · subst hk
      rw [defPassAux, h]
      simp only [Option.getD_none]
      rw [if_neg (by decide)]
      exact ih t u h
    · rw [defPassAux]
      by_cases hsub : strHasSub ((lookupVar t k).getD []) varMark = true
      · rw [if_pos hsub]
        by_cases heq : subVar t ((lookupVar t k).getD []) = (lookupVar t k).getD []
        · rw [if_pos heq]
          exact ih t u h
        · rw [if_neg heq]
          refine ih _ true ?_
          rw [lookupVar_updateAssoc, if_neg hk]
          exact h
      · rw [if_neg hsub]
        exact ih t u h

theorem defLoop_lookup_none (X : Str) :
    ∀ (n : Nat) (t : List (Str × Str)),
      lookupVar t X = none → lookupVar (defLoop n t) X = none := by
  intro n
  induction n with
  | zero => intro t h; simpa [defLoop] using h
  | succ m ih =>
    intro t h
    rw [defLoop]
    by_cases hp : (defPassAux (t.map Prod.fst) t false).2 = true
    · rw [if_pos hp]
      exact ih _ (defPassAux_lookup_none X _ t false h)
    · rw [if_neg hp]
      exact defPassAux_lookup_none X _ t false h

/-! ## Facts about the substitution loop -/

theorem subVar_keeps_fallback (t : List (Str × Str)) (s : Str)
    (h : ListContains s fallbackColor) : ListContains (subVar t s) fallbackColor :=
  subVarAux_keeps_fallback s.length t s (le_refl _) h

theorem docLoop_keeps_fallback :
    ∀ (n : Nat) (t : List (Str × Str)) (s : Str), ListContains s fallbackColor →
      ListContains (docLoop n t s) fallbackColor := by
  intro n
  induction n with
  | zero => intro t s h; simpa [docLoop] using h
  | succ m ih =>
    intro t s h
    rw [docLoop]
    by_cases he : subVar t s = s
    · rw [if_pos he]; exact h
    · rw [if_neg he]
      exact ih t _ (subVar_keeps_fallback t s h)

/-! ## Absence of reference patterns makes a pass the identity -/

theorem hasVarRef_cons (c : Char) (cs : Str) :
    hasVarRef (c :: cs) = ((matchVar (c :: cs)).isSome || hasVarRef cs) := by
  simp [hasVarRef, hasVarRefAux, List.length_cons]

theorem subVarAux_of_no_ref :
    ∀ (f : Nat) (t : List (Str × Str)) (s : Str), hasVarRef s = false →
      subVarAux f t s = s := by
  intro f
  induction f with
  | zero => intro t s _; simp [subVarAux]
  | succ n ih =>
    intro t s h
    cases s with
    | nil => simp [subVarAux]
    | cons c cs =>
      cases hmv : matchVar (c :: cs) with
      | some pr => rw [hasVarRef_cons, hmv] at h; simp at h
      | none =>
        rw [hasVarRef_cons, hmv] at h
        simp only [Option.isSome_none, Bool.false_or] at h
        rw [subVarAux_cons_none hmv, ih t cs h]

theorem subVar_of_no_ref (t : List (Str × Str)) (s : Str)
    (h : hasVarRef s = false) : subVar t s = s :=
  subVarAux_of_no_ref s.length t s h

/-! ## The loops are bounded iterations with early exit -/

theorem docLoop_iterate :
    ∀ (n : Nat) (t : List (Str × Str)) (s : Str),
      ∃ k, k ≤ n ∧ docLoop n t s = (subVar t)^[k] s := by
  intro n
  induction n with
  | zero => intro t s; exact ⟨0, le_refl _, rfl⟩
  | succ m ih =>
    intro t s
    rw [docLoop]
    by_cases he : subVar t s = s
    · exact ⟨0, Nat.zero_le _, by rw [if_pos he]; simp⟩
    · obtain ⟨k, hk, heq⟩ := ih t (subVar t s)
      exact ⟨k + 1, by omega, by
        rw [if_neg he, heq, Function.iterate_succ_apply]⟩

theorem defPassAux_true_stays :
    ∀ (ks : List Str) (t : List (Str × Str)), (defPassAux ks t true).2 = true := by
  intro ks
  induction ks with
  | nil => intro t; simp [defPassAux]
  | cons k ks' ih =>
    intro t
    rw [defPassAux]
    by_cases hsub : strHasSub ((lookupVar t k).getD []) varMark = true
    · rw [if_pos hsub]
      by_cases heq : subVar t ((lookupVar t k).getD []) = (lookupVar t k).getD []
      · rw [if_pos heq]; exact ih t
      · rw [if_neg heq]; exact ih _
    · rw [if_neg hsub]; exact ih t

theorem defPassAux_stable_of_false :
    ∀ (ks : List Str) (t : List (Str × Str)),
      (defPassAux ks t false).2 = false → (defPassAux ks t false).1 = t := by
  intro ks
  induction ks with
  | nil => intro t _; simp [defPassAux]
  | cons k ks' ih =>
    intro t h
    rw [defPassAux] at h ⊢
    by_cases hsub : strHasSub ((lookupVar t k).getD []) varMark = true
    · rw [if_pos hsub] at h ⊢
      by_cases heq : subVar t ((lookupVar t k).getD []) = (lookupVar t k).getD []
      · rw [if_pos heq] at h ⊢; exact ih t h
      · rw [if_neg heq] at h
        exact absurd h (by simp [defPassAux_true_stays])
    · rw [if_neg hsub] at h ⊢; exact ih t h

theorem defLoop_iterate :
    ∀ (n : Nat) (t : List (Str × Str)), ∃ k, k ≤ n ∧ defLoop n t = defPassStep^[k] t := by
  intro n
  induction n with
  | zero => intro t; exact ⟨0, le_refl _, rfl⟩
  | succ m ih =>
    intro t
    rw [defLoop]
    by_cases hp : (defPassAux (t.map Prod.fst) t false).2 = true
    · obtain ⟨k, hk, heq⟩ := ih (defPassAux (t.map Prod.fst) t false).1
      refine ⟨k + 1, by omega, ?_⟩
      rw [if_pos hp, heq, Function.iterate_succ_apply]
      rfl
    · refine ⟨0, Nat.zero_le _, ?_⟩
      rw [if_neg hp]
      have hfalse : (defPassAux (t.map Prod.fst) t false).2 = false := by
        revert hp; cases (defPassAux (t.map Prod.fst) t false).2 <;> simp
      simp only [Function.iterate_zero, id]
      exact defPassAux_stable_of_false _ t hfalse

/-! ## Facts about the timestamp format -/

theorem digitChar_isDigit (d : Nat) (h : d < 10) : (Nat.digitChar d).isDigit = true := by
  interval_cases d <;> decide

theorem decDigitsAux_len :
    ∀ (f n w : Nat), n < f → n < 10 ^ w → 1 ≤ w → (decDigitsAux f n).length ≤ w := by
  intro f
  induction f with
  | zero => intro n w h _ _; omega
  | succ m ih =>
    intro n w hf hw h1
    rw [decDigitsAux]
    by_cases hn : n < 10
    · rw [if_pos hn]
      simpa using h1
    · rw [if_neg hn]
      have hw2 : 2 ≤ w := by
        by_contra hcon
        have : w = 1 := by omega
        subst this
        simp at hw
        omega
      have hdiv : n / 10 < m := by omega
      have hdivpow : n / 10 < 10 ^ (w - 1) := by
        have h10 : 10 ^ (w - 1) * 10 = 10 ^ w := by
          rw [← pow_succ, Nat.sub_add_cancel h1]
        rw [Nat.div_lt_iff_lt_mul (by norm_num)]
        omega
      have := ih (n / 10) (w - 1) hdiv hdivpow (by omega)
      simp only [List.length_append, List.length_cons, List.length_nil]
      omega

theorem decDigitsAux_digits :
    ∀ (f n : Nat) (c : Char), c ∈ decDigitsAux f n → c.isDigit = true := by
  intro f
  induction f with
  | zero => intro n c h; simp [decDigitsAux] at h
  | succ m ih =>
    intro n c h
    rw [decDigitsAux] at h
    by_cases hn : n < 10
    · rw [if_pos hn] at h
      simp only [List.mem_singleton] at h
      subst h
      exact digitChar_isDigit n hn
    · rw [if_neg hn] at h
      simp only [List.mem_append, List.mem_singleton] at h
      rcases h with h | h
      · exact ih _ c h
      · subst h
        exact digitChar_isDigit _ (Nat.mod_lt n (by norm_num))

theorem padZero_length (w n : Nat) (h : n < 10 ^ w) (hw : 1 ≤ w) :
    (padZero w n).length = w := by
  have hlen : (natStr n).length ≤ w := decDigitsAux_len (n + 1) n w (by omega) h hw
  simp only [padZero, List.length_append, List.length_replicate]
  omega

theorem padZero_digits (w n : Nat) (c : Char) (h : c ∈ padZero w n) :
    c.isDigit = true := by
  simp only [padZero, List.mem_append, List.mem_replicate] at h
  rcases h with h | h
  · rw [h.2]; decide
  · exact decDigitsAux_digits _ _ c h

/-- Under the field bounds guaranteed by `datetime`, the timestamp is eight
digits, an underscore, then six digits. -/
theorem formatTimestamp_shape (dt : DateTimeRec) (h : validDT dt) :
    ∃ d8 d6, formatTimestamp dt = d8 ++ '_' :: d6 ∧ d8.length = 8 ∧ d6.length = 6 ∧
      (∀ c ∈ d8, c.isDigit = true) ∧ (∀ c ∈ d6, c.isDigit = true) := by
  obtain ⟨hy, hmo, hd, hh, hmi, hs⟩ := h
  refine ⟨padZero 4 dt.year ++ padZero 2 dt.month ++ padZero 2 dt.day,
    padZero 2 dt.hour ++ padZero 2 dt.minute ++ padZero 2 dt.second, ?_, ?_, ?_, ?_, ?_⟩
  · simp [formatTimestamp, List.append_assoc]
  · simp only [List.length_append]
    rw [padZero_length 4 dt.year (by norm_num; omega) (by norm_num),
      padZero_length 2 dt.month (by norm_num; omega) (by norm_num),
      padZero_length 2 dt.day (by norm_num; omega) (by norm_num)]
  · simp only [List.length_append]
    rw [padZero_length 2 dt.hour (by norm_num; omega) (by norm_num),
      padZero_length 2 dt.minute (by norm_num; omega) (by norm_num),
      padZero_length 2 dt.second (by norm_num; omega) (by norm_num)]
  · intro c hc
    simp only [List.mem_append] at hc
    rcases hc with (hc | hc) | hc <;> exact padZero_digits _ _ c hc
  · intro c hc
    simp only [List.mem_append] at hc
    rcases hc with (hc | hc) | hc <;> exact padZero_digits _ _ c hc

/-! ## Claim C1 -/

/-- Claim C1 as stated is false.  First input: `var(--X)` alone has no
declarations, so the fast path returns it unchanged — the output keeps the
literal `var(--X)` and contains no fallback color.  Second input: a markup
with declarations whose values hold partial reference syntax; the capped
substitution loop ends with a fresh `var(--X)` in the output even though
the input contains a `var(--X)` reference and `X` is undeclared. -/
theorem c1_counterexample :
    (strHasSub ("var(--X)".toList) ("var(--X)".toList) = true ∧
     lookupVar (extractDefs ("var(--X)".toList)) ("X".toList) = none ∧
     resolve_css_variables ("var(--X)".toList) = "var(--X)".toList ∧
     strHasSub (resolve_css_variables ("var(--X)".toList)) fallbackColor = false) ∧
    (strHasSub pathoInput ("var(--X)".toList) = true ∧
     lookupVar (extractDefs pathoInput) ("X".toList) = none ∧
     extractDefs pathoInput ≠ [] ∧
     strHasSub (resolve_css_variables pathoInput) ("var(--X)".toList) = true) := by
  decide

/-- Claim C1 (amended): if the markup contains at least one declaration and a
reference `var(--X)` whose name has no declaration, the output contains the
fixed fallback color `#000000` (the first substitution pass replaces the
occurrence with it); the literal `var(--X)` text may nevertheless reappear
when declared values contain partial reference syntax. -/
theorem c1_amended (pre X post : Str) (hX : X ≠ [])
    (hchars : ∀ c ∈ X, isNameChar c = true)
    (hmiss : lookupVar (extractDefs (pre ++ varRefStr X ++ post)) X = none)
    (hdecl : extractDefs (pre ++ varRefStr X ++ post) ≠ []) :
    strHasSub (resolve_css_variables (pre ++ varRefStr X ++ post))
      fallbackColor = true := by
  rw [strHasSub_iff]
  rw [resolve_css_variables]
  rw [if_neg (by simpa [List.isEmpty_iff] using hdecl)]
  have hmiss' : lookupVar (defLoop 10 (extractDefs (pre ++ varRefStr X ++ post))) X = none :=
    defLoop_lookup_none X 10 _ hmiss
  have hp1 : ListContains
      (subVar (defLoop 10 (extractDefs (pre ++ varRefStr X ++ post)))
        (pre ++ varRefStr X ++ post)) fallbackColor := by
    rw [subVar]
    exact subVarAux_hits_fallback _ _ pre X post (le_refl _) hX hchars hmiss'
  rw [docLoop]
  by_cases he : subVar (defLoop 10 (extractDefs (pre ++ varRefStr X ++ post)))
      (pre ++ varRefStr X ++ post) = pre ++ varRefStr X ++ post
  · rw [if_pos he]
    rw [he] at hp1
    exact hp1
  · rw [if_neg he]
    exact docLoop_keeps_fallback 2 _ _ hp1

theorem c1_amended_witness :
    strHasSub (resolve_css_variables
      ("--a: red; ".toList ++ varRefStr ['X'] ++ " b".toList)) fallbackColor = true :=
  c1_amended ("--a: red; ".toList) ['X'] (" b".toList)
    (by decide) (by decide) (by decide) (by decide)

/-! ## Claim C2 -/

/-- Claim C2 as stated is false: on `nonIdemInput` the first resolution leaves
a fresh complete reference in the output, which a second resolution then
replaces, so the two results differ. -/
theorem c2_counterexample :
    resolve_css_variables (resolve_css_variables nonIdemInput) ≠
      resolve_css_variables nonIdemInput := by
  decide

/-- Claim C2 (amended): resolution is idempotent on every markup whose
resolution contains no remaining complete `var(--name)` reference pattern
(which holds for all inputs whose declared values do not smuggle in partial
reference syntax). -/
theorem c2_amended (s : Str)
    (h : hasVarRef (resolve_css_variables s) = false) :
    resolve_css_variables (resolve_css_variables s) = resolve_css_variables s := by
  generalize hr : resolve_css_variables s = r at h
  rw [resolve_css_variables]
  by_cases hemp : (extractDefs r).isEmpty = true
  · rw [if_pos hemp]
  · rw [if_neg hemp]
    have hfix : ∀ (n : Nat) (t : List (Str × Str)), docLoop n t r = r := by
      intro n t
      induction n with
      | zero => rfl
      | succ m ih =>
        rw [docLoop, subVar_of_no_ref t r h, if_pos rfl]
    exact hfix 3 _

theorem c2_amended_witness :
    resolve_css_variables (resolve_css_variables chainInput) =
      resolve_css_variables chainInput :=
  c2_amended chainInput (by decide)

/-! ## Claim C3 -/

/-- Claim C3: on a markup with the declaration chain
`--a: var(--b); --b: var(--c); --c: red;` and a usage `var(--a)` elsewhere,
the usage resolves transitively to `red` (as does every other reference). -/
theorem c3_transitive_chain :
    resolve_css_variables chainInput =
      "--a: red; --b: red; --c: red; fill:red".toList := by
  decide

/-! ## Claim C4 -/

/-- Claim C4: the resolver is total and its work is bounded — the result is
always obtained by at most 10 passes of nested-definition resolution
followed by at most 3 document substitution passes. -/
theorem c4_resolver_total (s : Str) :
    ∃ j, j ≤ 10 ∧ ∃ k, k ≤ 3 ∧
      resolve_css_variables s =
        (subVar (defPassStep^[j] (extractDefs s)))^[k] s := by
  rw [resolve_css_variables]
  by_cases hemp : (extractDefs s).isEmpty = true
  · exact ⟨0, by omega, 0, by omega, by rw [if_pos hemp]; simp⟩
  · rw [if_neg hemp]
    obtain ⟨j, hj, hje⟩ := defLoop_iterate 10 (extractDefs s)
    obtain ⟨k, hk, hke⟩ := docLoop_iterate 3 (defLoop 10 (extractDefs s)) s
    exact ⟨j, hj, k, hk, by rw [hke, hje]⟩

/-! ## Claim C5 -/

/-- Claim C5: the vector artifact receives the caller-supplied markup
verbatim — the resolver is not applied to it; the resolver is applied
exactly to the copy handed to the raster-conversion capability, inside
`svg_to_png`. -/
theorem c5_vector_verbatim (ctx : RenderCtx) (svg chart_name : Str)
    (dir : Option Str) (spng : Bool) :
    ∃ files res,
      generate_and_save_images fsAll ctx svg chart_name dir true spng =
        Except.ok (files, res) ∧
      files.head? = some (svgSavePath ctx chart_name dir, FileContent.text svg) ∧
      (∀ p b, (p, FileContent.bin b) ∈ files →
        ctx.convert (resolve_css_variables svg) = some b) ∧
      svg_to_png ctx svg =
        (if ctx.hasCairo then ctx.convert (resolve_css_variables svg) else none) := by
  have hpng : svg_to_png ctx svg =
      (if ctx.hasCairo then ctx.convert (resolve_css_variables svg) else none) := rfl
  by_cases hca : (spng && ctx.hasCairo) = true
  · cases hc : svg_to_png ctx svg with
    | none =>
      refine ⟨[(svgSavePath ctx chart_name dir, FileContent.text svg)],
        { status := "success".toList
          outputDir := chartOutPath ctx dir
          svgPath := some (svgSavePath ctx chart_name dir)
          pngPath := none
          summary := "Chart generated successfully. SVG: ".toList ++
            svgSavePath ctx chart_name dir ++ ", PNG: ".toList ++ "N/A".toList },
        ?_, rfl, ?_, hc ▸ hpng⟩
      · simp [generate_and_save_images, fsAll, hca, hc, svgSavePath]
      · intro p b hmem
        simp at hmem
    | some bytes =>
      refine ⟨[(svgSavePath ctx chart_name dir, FileContent.text svg),
        (pngSavePath ctx chart_name dir, FileContent.bin bytes)],
        { status := "success".toList
          outputDir := chartOutPath ctx dir
          svgPath := some (svgSavePath ctx chart_name dir)
          pngPath := some (pngSavePath ctx chart_name dir)
          summary := "Chart generated successfully. SVG: ".toList ++
            svgSavePath ctx chart_name dir ++ ", PNG: ".toList ++
            pngSavePath ctx chart_name dir },
        ?_, rfl, ?_, hc ▸ hpng⟩
      · simp [generate_and_save_images, fsAll, hca, hc, svgSavePath, pngSavePath]
      · intro p b hmem
        simp only [List.mem_cons, List.mem_singleton, Prod.mk.injEq] at hmem
        rcases hmem with ⟨-, habs⟩ | ⟨-, hbin⟩ | h
        · exact absurd habs (by simp)
        · obtain rfl : b = bytes := by injection hbin
          rw [svg_to_png, if_pos (Bool.and_elim_right hca)] at hc
          exact hc
        · simp at h
  · refine ⟨[(svgSavePath ctx chart_name dir, FileContent.text svg)],
      { status := "success".toList
        outputDir := chartOutPath ctx dir
        svgPath := some (svgSavePath ctx chart_name dir)
        pngPath := none
        summary := "Chart generated successfully. SVG: ".toList ++
          svgSavePath ctx chart_name dir ++ ", PNG: ".toList ++ "N/A".toList },
      ?_, rfl, ?_, hpng⟩
    · simp [generate_and_save_images, fsAll, hca, svgSavePath]
    · intro p b hmem
      simp at hmem

/-! ## Claim C6 -/

/-- Claim C6: when the raster conversion yields nothing (capability
unavailable or failing), the call still succeeds with the vector path
present and the raster path absent. -/
theorem c6_raster_failure_degrades (ctx : RenderCtx) (svg nm : Str)
    (dir : Option Str) (h : svg_to_png ctx svg = none) :
    ∃ files res,
      generate_and_save_images fsAll ctx svg nm dir true true =
        Except.ok (files, res) ∧
      res.status = "success".toList ∧
      res.svgPath = some (svgSavePath ctx nm dir) ∧
      res.pngPath = none := by
  refine ⟨[(svgSavePath ctx nm dir, FileContent.text svg)],
    { status := "success".toList
      outputDir := chartOutPath ctx dir
      svgPath := some (svgSavePath ctx nm dir)
      pngPath := none
      summary := "Chart generated successfully. SVG: ".toList ++
        svgSavePath ctx nm dir ++ ", PNG: ".toList ++ "N/A".toList },
    ?_, rfl, rfl, rfl⟩
  by_cases hca : ctx.hasCairo = true
  · simp [generate_and_save_images, fsAll, hca, h, svgSavePath]
  · simp [generate_and_save_images, fsAll, hca, svgSavePath]

theorem c6_raster_failure_degrades_witness :
    ∃ files res,
      generate_and_save_images fsAll c6CtxNoCairo ("<svg/>".toList)
        ("chart".toList) none true true = Except.ok (files, res) ∧
      res.status = "success".toList ∧
      res.svgPath = some (svgSavePath c6CtxNoCairo ("chart".toList) none) ∧
      res.pngPath = none :=
  c6_raster_failure_degrades c6CtxNoCairo ("<svg/>".toList) ("chart".toList) none rfl

/-! ## Claim C7 -/

/-- Claim C7: a filesystem failure — directory creation, vector write, or
raster write — propagates to the caller as an error; no result record is
produced. -/
theorem c7_fs_errors_propagate :
    (∀ (fs : FsModel) (ctx : RenderCtx) (svg nm : Str) (dir : Option Str)
        (ssvg spng : Bool),
      fs.mkdirOk (chartOutPath ctx dir) = false →
      generate_and_save_images fs ctx svg nm dir ssvg spng =
        Except.error (FsError.mkdirFailed (chartOutPath ctx dir))) ∧
    (∀ (fs : FsModel) (ctx : RenderCtx) (svg nm : Str) (dir : Option Str)
        (spng : Bool),
      fs.mkdirOk (chartOutPath ctx dir) = true →
      fs.writeOk (svgSavePath ctx nm dir) = false →
      generate_and_save_images fs ctx svg nm dir true spng =
        Except.error (FsError.writeFailed (svgSavePath ctx nm dir))) ∧
    (∀ (fs : FsModel) (ctx : RenderCtx) (svg nm : Str) (dir : Option Str)
        (bytes : List Nat),
      fs.mkdirOk (chartOutPath ctx dir) = true →
      fs.writeOk (svgSavePath ctx nm dir) = true →
      svg_to_png ctx svg = some bytes →
      fs.writeOk (pngSavePath ctx nm dir) = false →
      generate_and_save_images fs ctx svg nm dir true true =
        Except.error (FsError.writeFailed (pngSavePath ctx nm dir))) := by
  refine ⟨?_, ?_, ?_⟩
  · intro fs ctx svg nm dir ssvg spng h
    simp [generate_and_save_images, h]
  · intro fs ctx svg nm dir spng hm hw
    simp [svgSavePath] at hw
    simp [generate_and_save_images, hm, hw, svgSavePath]
  · intro fs ctx svg nm dir bytes hm hw1 hpng hw2
    have hca : ctx.hasCairo = true := by
      by_contra hc
      rw [svg_to_png, if_neg hc] at hpng
      exact Option.noConfusion hpng
    simp [svgSavePath] at hw1
    simp [pngSavePath] at hw2
    simp [generate_and_save_images, hm, hw1, hw2, hca, hpng, svgSavePath, pngSavePath]

theorem c7_fs_errors_propagate_witness :
    generate_and_save_images c7FsNoMkdir c7Ctx ("<svg/>".toList) ("c".toList)
        none true true =
      Except.error (FsError.mkdirFailed (chartOutPath c7Ctx none)) ∧
    generate_and_save_images c7FsNoWrite c7Ctx ("<svg/>".toList) ("c".toList)
        none true true =
      Except.error (FsError.writeFailed (svgSavePath c7Ctx ("c".toList) none)) ∧
    generate_and_save_images c7FsNoPngWrite c7Ctx ("<svg/>".toList) ("c".toList)
        none true true =
      Except.error (FsError.writeFailed (pngSavePath c7Ctx ("c".toList) none)) :=
  ⟨c7_fs_errors_propagate.1 c7FsNoMkdir c7Ctx ("<svg/>".toList) ("c".toList)
      none true true rfl,
   c7_fs_errors_propagate.2.1 c7FsNoWrite c7Ctx ("<svg/>".toList) ("c".toList)
      none true rfl rfl,
   c7_fs_errors_propagate.2.2 c7FsNoPngWrite c7Ctx ("<svg/>".toList) ("c".toList)
      none [0] rfl (by decide) rfl (by decide)⟩

/-! ## Claim C8 -/

/-- Claim C8: with vector emission only, the call produces exactly one file,
named by the lowercased chart name with every character outside letters,
digits, underscore and hyphen replaced by underscore (for `"My Chart!!"`
this is `my_chart__`), an underscore, and a second-resolution timestamp of
eight digits, an underscore and six digits; the result carries no raster
path. -/
theorem c8_filename_scheme (ctx : RenderCtx) (svg : Str) (dir : Option Str)
    (h : validDT ctx.now) :
    ∃ files res,
      generate_and_save_images fsAll ctx svg ("My Chart!!".toList) dir true false =
        Except.ok (files, res) ∧
      files = [(chartOutPath ctx dir ++ '/' ::
          ("my_chart__".toList ++ '_' :: (formatTimestamp ctx.now ++ ".svg".toList)),
        FileContent.text svg)] ∧
      res.pngPath = none ∧
      (∃ d8 d6, formatTimestamp ctx.now = d8 ++ '_' :: d6 ∧
        d8.length = 8 ∧ d6.length = 6 ∧
        (∀ c ∈ d8, c.isDigit = true) ∧ (∀ c ∈ d6, c.isDigit = true)) := by
  have hname : chartSafeName ("My Chart!!".toList) = "my_chart__".toList := by decide
  have hpath : svgSavePath ctx ("My Chart!!".toList) dir =
      chartOutPath ctx dir ++ '/' ::
        ("my_chart__".toList ++ '_' :: (formatTimestamp ctx.now ++ ".svg".toList)) := by
    unfold svgSavePath chartBaseName
    rw [hname]
    simp [List.append_assoc]
  refine ⟨[(svgSavePath ctx ("My Chart!!".toList) dir, FileContent.text svg)],
    { status := "success".toList
      outputDir := chartOutPath ctx dir
      svgPath := some (svgSavePath ctx ("My Chart!!".toList) dir)
      pngPath := none
      summary := "Chart generated successfully. SVG: ".toList ++
        svgSavePath ctx ("My Chart!!".toList) dir ++ ", PNG: ".toList ++
        "N/A".toList },
    ?_, by rw [hpath], rfl, formatTimestamp_shape ctx.now h⟩
  simp [generate_and_save_images, fsAll, svgSavePath]

theorem c8_filename_scheme_witness :
    ∃ files res,
      generate_and_save_images fsAll c6CtxNoCairo ("<svg/>".toList)
        ("My Chart!!".toList) (some ("/tmp/out".toList)) true false =
        Except.ok (files, res) ∧
      files = [(chartOutPath c6CtxNoCairo (some ("/tmp/out".toList)) ++ '/' ::
          ("my_chart__".toList ++ '_' ::
            (formatTimestamp c6CtxNoCairo.now ++ ".svg".toList)),
        FileContent.text ("<svg/>".toList))] ∧
      res.pngPath = none ∧
      (∃ d8 d6, formatTimestamp c6CtxNoCairo.now = d8 ++ '_' :: d6 ∧
        d8.length = 8 ∧ d6.length = 6 ∧
        (∀ c ∈ d8, c.isDigit = true) ∧ (∀ c ∈ d6, c.isDigit = true)) :=
  c8_filename_scheme c6CtxNoCairo ("<svg/>".toList) (some ("/tmp/out".toList))
    (by unfold validDT; decide)

/-! ## Claim C9 -/

/-- Claim C9 as stated is false: `"helio"` case-normalizes to a string that
is not a member of the fixed perspective-type set, yet the validator
returns `"Heliocentric"` (substring matching), not the default. -/
theorem c9_counterexample :
    (∀ v ∈ VALID_PERSPECTIVE_TYPES, lowerStr ("helio".toList) ≠ lowerStr v) ∧
    validate_perspective_type ("helio".toList) = "Heliocentric".toList ∧
    "Heliocentric".toList ≠ "Apparent Geocentric".toList := by
  decide

/-- Claim C9 (amended): the validator returns the documented default
`"Apparent Geocentric"` for every input whose lowercased form neither
equals nor occurs as a substring of the lowercased form of any member of
the fixed perspective-type set; otherwise it returns the first member that
matches in this extended (substring) sense. -/
theorem c9_amended (s : Str)
    (h : ∀ v ∈ VALID_PERSPECTIVE_TYPES, lowerStr s ≠ lowerStr v ∧
      strHasSub (lowerStr v) (lowerStr s) = false) :
    validate_perspective_type s = "Apparent Geocentric".toList := by
  have hfind : VALID_PERSPECTIVE_TYPES.find?
      (fun valid => lowerStr s == lowerStr valid ||
        strHasSub (lowerStr valid) (lowerStr s)) = none := by
    rw [List.find?_eq_none]
    intro v hv
    obtain ⟨h1, h2⟩ := h v hv
    simp [h1, h2]
  simp only [validate_perspective_type, hfind]

theorem c9_amended_witness :
    validate_perspective_type ("Draconic".toList) = "Apparent Geocentric".toList :=
  c9_amended ("Draconic".toList) (by decide)

/-! ## Claim C10 -/

/-- Claim C10: an empty-string output directory is treated exactly like an
absent one — the call behaves identically and the files go to the
user-scoped default directory `<home>/.kerykeion_charts`. -/
theorem c10_empty_dir_default (fs : FsModel) (ctx : RenderCtx) (svg nm : Str)
    (ssvg spng : Bool) :
    generate_and_save_images fs ctx svg nm (some []) ssvg spng =
      generate_and_save_images fs ctx svg nm none ssvg spng ∧
    chartOutPath ctx (some []) = ctx.home ++ "/.kerykeion_charts".toList := by
  constructor
  · have h : chartOutPath ctx (some []) = chartOutPath ctx none := by
      simp [chartOutPath]
    simp only [generate_and_save_images, h]
  · simp [chartOutPath, get_chart_output_dir]
